import Mathlib

/-!
Verification of the schema-mapping knowledge engine and pipeline of this
repository. The Python sources are shallowly embedded: dictionaries become
insertion-ordered association lists, floats become exact rationals, and a
method that can raise is modelled with `Option` or `Except`.
-/

namespace Agent

/-- Lookup in a Python dict modelled as an association list: the first pair
with the requested key. -/
def assocFind {α : Type} (l : List (String × α)) (k : String) : Option α :=
  (l.find? (fun p => p.1 == k)).map (fun p => p.2)

/-- Python dict assignment `d[k] = v`: an existing key keeps its position and
gets the new value, a new key is appended at the end (insertion order). -/
def assocSet {α : Type} (l : List (String × α)) (k : String) (v : α) : List (String × α) :=
  if (l.find? (fun p => p.1 == k)).isSome then
    l.map (fun p => if p.1 == k then (k, v) else p)
  else
    l ++ [(k, v)]

/-- One stored candidate of `src/models/knowledge_base.py`: the dict
`{"business_entity": ..., "confidence": ..., "count": ...}`. -/
structure Entry where
  business_entity : String
  confidence : ℚ
  count : ℕ
deriving Repr, DecidableEq

/-- The in-memory state `self.mappings` of `KnowledgeBase`: a dict from a
technical column name to its record; the record dict holds the single key
`"mappings"`, so it is modelled as the candidate list itself. -/
structure KnowledgeBase where
  mappings : List (String × List Entry)
deriving Repr, DecidableEq

/-- Membership test plus read: `technical in self.mappings` and
`self.mappings[technical]["mappings"]`. -/
def kbFind (kb : KnowledgeBase) (technical : String) : Option (List Entry) :=
  assocFind kb.mappings technical

/-- Python `str.lower()` (letters mapped to lower case), written on the
character list so that it evaluates inside the kernel. -/
def pyLower (s : String) : String :=
  ⟨s.toList.map Char.toLower⟩

/-- The case-insensitive candidate match used by both mutators:
`mapping["business_entity"].lower() == business.lower()`. -/
def ciEq (e : Entry) (business : String) : Bool :=
  pyLower e.business_entity == pyLower business

/-- The shared in-place update loop of `add_mappings` and `add_feedback`: walk
the candidate list, rewrite the first case-insensitive match with `f` and stop
(the `break`); `none` when no candidate matches (the `found` flag stays false). -/
def updateFirstMatch (business : String) (f : Entry → Entry) : List Entry → Option (List Entry)
  | [] => none
  | e :: es =>
    if ciEq e business then some (f e :: es)
    else (updateFirstMatch business f es).map (fun es' => e :: es')

/-- The in-place candidate update of `add_mappings`:
`mapping["count"] += 1; mapping["confidence"] = min(1.0, confidence + 0.05)`. -/
def mergeUpdate (e : Entry) : Entry :=
  ⟨e.business_entity, min 1 (e.confidence + 1/20), e.count + 1⟩

/-- `KnowledgeBase.add_mappings`, one `(technical, business)` item of the dict:
unseen names get a fresh record at the given confidence and count 1; a matching
candidate gets `count += 1` and `confidence = min(1.0, confidence + 0.05)`;
otherwise a new candidate is appended. -/
def add_mapping_pair (kb : KnowledgeBase) (technical business : String)
    (confidence : ℚ) : KnowledgeBase :=
  match kbFind kb technical with
  | none =>
      ⟨assocSet kb.mappings technical [⟨business, confidence, 1⟩]⟩
  | some es =>
      match updateFirstMatch business mergeUpdate es with
      | some es' => ⟨assocSet kb.mappings technical es'⟩
      | none => ⟨assocSet kb.mappings technical (es ++ [⟨business, confidence, 1⟩])⟩

/-- `KnowledgeBase.add_mappings`: iterate over the dict items in insertion
order. `save()` only mirrors the state to disk and does not change the
in-memory store modelled here. The Python default for `confidence` is 0.8. -/
def add_mappings (kb : KnowledgeBase) (pairs : List (String × String))
    (confidence : ℚ) : KnowledgeBase :=
  pairs.foldl (fun kb p => add_mapping_pair kb p.1 p.2 confidence) kb

/-- Python `str.title()`: the first letter of every maximal run of letters is
uppercased and the following letters of the run are lowercased; other
characters are kept and end the run. -/
def pyTitleAux : Bool → List Char → List Char
  | _, [] => []
  | prevCased, c :: cs =>
    if c.isAlpha then
      (if prevCased then c.toLower else c.toUpper) :: pyTitleAux true cs
    else
      c :: pyTitleAux false cs

/-- Python `s.title()` on the character list of `s`. -/
def pyTitle (s : String) : String :=
  ⟨pyTitleAux false s.toList⟩

/-- Python `technical.replace('_', ' ')`, specialised to the one-character
pattern the source uses: every underscore becomes a space. -/
def replaceUnderscore (s : String) : String :=
  ⟨s.toList.map (fun c => if c = '_' then ' ' else c)⟩

/-- The deterministic fallback label of `get_mapping` and `get_all_mappings`:
`technical.replace('_', ' ').title()`. -/
def humanize (technical : String) : String :=
  pyTitle (replaceUnderscore technical)

/-- Python tuple comparison of the max key `(x["confidence"], x["count"])`. -/
def keyLt (a b : Entry) : Prop :=
  a.confidence < b.confidence ∨ (a.confidence = b.confidence ∧ a.count < b.count)

instance keyLtDec (a b : Entry) : Decidable (keyLt a b) :=
  inferInstanceAs (Decidable (_ ∨ _))

/-- Python `max(candidates, key=lambda x: (x["confidence"], x["count"]))`:
scan left to right and replace the best only on a strictly greater key, so a
tie keeps the earlier (first-inserted) candidate. -/
def pyMax (e : Entry) (es : List Entry) : Entry :=
  es.foldl (fun best x => if keyLt best x then x else best) e

/-- `KnowledgeBase.get_mapping`. On an empty candidate list Python `max([])`
would raise ValueError, modelled as `none`; the store never creates an empty
record. -/
def get_mapping (kb : KnowledgeBase) (technical : String) : Option String :=
  match kbFind kb technical with
  | none => some (humanize technical)
  | some [] => none
  | some (e :: es) => some (pyMax e es).business_entity

/-- `get_mapping` only reads `self.mappings`; the returned pair carries the
store unchanged to make that explicit. -/
def get_mapping_run (kb : KnowledgeBase) (technical : String) :
    Option String × KnowledgeBase :=
  (get_mapping kb technical, kb)

/-- `KnowledgeBase.get_all_mappings`: an unseen name yields one synthesized
entry (humanized label, confidence 0.5, count 0) without touching the store. -/
def get_all_mappings (kb : KnowledgeBase) (technical : String) : List Entry :=
  match kbFind kb technical with
  | none => [⟨humanize technical, 1/2, 0⟩]
  | some es => es

/-- `get_all_mappings` only reads `self.mappings`; the pair carries the store
unchanged to make that explicit. -/
def get_all_mappings_run (kb : KnowledgeBase) (technical : String) :
    List Entry × KnowledgeBase :=
  (get_all_mappings kb technical, kb)

/-- The in-place candidate update of `add_feedback`: plus 0.1 capped at 1.0 on
positive feedback, minus 0.1 floored at 0.1 on negative feedback, and
`count += 1` either way. -/
def feedbackUpdate (positive : Bool) (e : Entry) : Entry :=
  ⟨e.business_entity,
   if positive then min 1 (e.confidence + 1/10) else max (1/10) (e.confidence - 1/10),
   e.count + 1⟩

/-- `KnowledgeBase.add_feedback`: unseen names get a fresh record at 0.6
(positive) or 0.4 (negative); a matching candidate is nudged by plus or minus
0.1, clamped to [0.1, 1.0], with `count += 1`; no match appends a candidate at
0.6 on positive feedback and is a no-op on negative feedback. -/
def add_feedback (kb : KnowledgeBase) (technical business : String)
    (positive : Bool) : KnowledgeBase :=
  match kbFind kb technical with
  | none =>
      ⟨assocSet kb.mappings technical [⟨business, if positive then 3/5 else 2/5, 1⟩]⟩
  | some es =>
      match updateFirstMatch business (feedbackUpdate positive) es with
      | some es' => ⟨assocSet kb.mappings technical es'⟩
      | none =>
          if positive then ⟨assocSet kb.mappings technical (es ++ [⟨business, 3/5, 1⟩])⟩
          else kb

/-- The two mutating operations of the Mapping Store. -/
inductive KBOp where
  | merge (pairs : List (String × String)) (confidence : ℚ)
  | feedback (technical business : String) (positive : Bool)

/-- Run one operation against the store. -/
def applyOp (kb : KnowledgeBase) : KBOp → KnowledgeBase
  | KBOp.merge pairs confidence => add_mappings kb pairs confidence
  | KBOp.feedback t b p => add_feedback kb t b p

/-- Run a sequence of merge and feedback operations. -/
def applyOps (kb : KnowledgeBase) (ops : List KBOp) : KnowledgeBase :=
  ops.foldl applyOp kb

/-- The lower-cased candidate labels of one record. -/
def labels (es : List Entry) : List String :=
  es.map (fun e => pyLower e.business_entity)

/-- The data-model invariant: labels of one record are pairwise distinct under
case-insensitive comparison. -/
def ciDistinct (es : List Entry) : Prop :=
  (labels es).Nodup

instance ciDistinctDec (es : List Entry) : Decidable (ciDistinct es) :=
  inferInstanceAs (Decidable (labels es).Nodup)

/-- The invariant over the whole store. -/
def kbCIUnique (kb : KnowledgeBase) : Prop :=
  ∀ p ∈ kb.mappings, ciDistinct p.2

instance kbCIUniqueDec (kb : KnowledgeBase) : Decidable (kbCIUnique kb) :=
  inferInstanceAs (Decidable (∀ p ∈ kb.mappings, ciDistinct p.2))

/-- A store with one record holding one candidate at confidence 0.8. -/
def kbC1 : KnowledgeBase :=
  ⟨[("c", [⟨"X", 4/5, 1⟩])]⟩

/-- A store with two candidates for `"col"` tied at confidence 0.9, counts 2
and 5. -/
def kbC2 : KnowledgeBase :=
  ⟨[("col", [⟨"A", 9/10, 2⟩, ⟨"B", 9/10, 5⟩])]⟩

/-- A store whose only candidate sits exactly at the 0.1 confidence floor; it
is reached from the empty store by four negative feedback calls on the same
pair (0.4, then 0.3, 0.2, 0.1). -/
def kbC4 : KnowledgeBase :=
  ⟨[("col", [⟨"X", 1/10, 4⟩])]⟩

/-- A cell of the table model of `DataProcessingAgent`: pandas numeric values
as exact rationals, everything else as strings. -/
inductive Value where
  | num (q : ℚ)
  | str (s : String)
deriving Repr, DecidableEq

/-- A pandas DataFrame: a header of (column name, is-numeric-dtype) pairs and
rows aligned with the header. -/
structure DataFrame where
  header : List (String × Bool)
  rows : List (List Value)
deriving Repr, DecidableEq

/-- Position of a column label; `none` models the KeyError raised by `df[c]`
for a missing column. -/
def colIndex (df : DataFrame) (c : String) : Option ℕ :=
  df.header.findIdx? (fun p => p.1 == c)

/-- `df.select_dtypes(include=["number"]).columns[0]` (with `.any()` as the
existence test): the first column of numeric dtype, if any. -/
def firstNumericColumn (df : DataFrame) : Option String :=
  (df.header.find? (fun p => p.2)).map (fun p => p.1)

/-- The `value` field of one filter dict of the interpreter output. -/
inductive FilterValue where
  | num (q : ℚ)
  | str (s : String)
  | list (vs : List Value)
  | null
deriving Repr, DecidableEq

/-- One filter dict of `_apply_filters`; a missing `column` or `operation`
key is modelled as the empty string, falsy in Python exactly like `None`. -/
structure FilterSpec where
  column : String
  operation : String
  value : FilterValue
deriving Repr, DecidableEq

/-- Elementwise `==` of a pandas column against the filter value: mismatched
types compare unequal without raising; comparing against a list raises. -/
def eqTest (fv : FilterValue) : Value → Option Bool
  | Value.num q =>
    match fv with
    | FilterValue.num q' => some (q == q')
    | FilterValue.str _ => some false
    | FilterValue.null => some false
    | FilterValue.list _ => none
  | Value.str s =>
    match fv with
    | FilterValue.str s' => some (s == s')
    | FilterValue.num _ => some false
    | FilterValue.null => some false
    | FilterValue.list _ => none

/-- Elementwise `!=`: the negation of `==`. -/
def neTest (fv : FilterValue) (v : Value) : Option Bool :=
  (eqTest fv v).map (fun b => !b)

/-- Elementwise relational comparison of a cell against the filter value:
numbers compare numerically, strings lexicographically, and a type mismatch
raises a TypeError, which skips the whole filter. -/
def relTest (qcmp : ℚ → ℚ → Bool) (scmp : String → String → Bool)
    (fv : FilterValue) : Value → Option Bool
  | Value.num q =>
    match fv with
    | FilterValue.num q' => some (qcmp q q')
    | _ => none
  | Value.str s =>
    match fv with
    | FilterValue.str s' => some (scmp s s')
    | _ => none

/-- Character-list test that `needle` starts the list. -/
def startsWithChars : List Char → List Char → Bool
  | [], _ => true
  | _ :: _, [] => false
  | a :: as, b :: bs => a == b && startsWithChars as bs

/-- Character-list substring search. -/
def hasSubChars (needle : List Char) : List Char → Bool
  | [] => startsWithChars needle []
  | c :: rest => startsWithChars needle (c :: rest) || hasSubChars needle rest

/-- Python `needle in hay` on strings. -/
def containsSubstr (hay needle : String) : Bool :=
  hasSubChars needle.toList hay.toList

/-- Python `str(value)` as the `contains` branch uses it. Only string values
are produced by the interpreter for this branch; other shapes get a fixed
rendering here and are unexercised. -/
def pyStr : FilterValue → String
  | FilterValue.str s => s
  | FilterValue.num q =>
    if q.den == 1 then toString q.num else toString q.num ++ "/" ++ toString q.den
  | FilterValue.list _ => "[...]"
  | FilterValue.null => "None"

/-- Build the boolean mask row by row and filter; pandas evaluates the whole
mask before indexing, so one failing cell (TypeError) aborts the entire
filter, modelled by `none`. -/
def filterOrFail (test : List Value → Option Bool) :
    List (List Value) → Option (List (List Value))
  | [] => some []
  | r :: rs =>
    match test r, filterOrFail test rs with
    | some b, some rs' => some (if b then r :: rs' else rs')
    | _, _ => none

/-- `filtered_df = filtered_df[elementwise test on column c]`: a missing
column (KeyError) or a failing comparison is caught by the `except` of
`_apply_filters` and leaves the frame as it was. -/
def applyCellFilter (df : DataFrame) (c : String) (test : Value → Option Bool) : DataFrame :=
  match colIndex df c with
  | none => df
  | some ci =>
    match filterOrFail (fun r => (r[ci]?).bind test) df.rows with
    | none => df
    | some rs => ⟨df.header, rs⟩

/-- `df[column].str.contains(str(value), na=False)`: on a numeric-dtype column
the `.str` accessor raises and the filter is skipped; on an object column a
non-string cell yields NaN, excluded by `na=False`. -/
def containsFilter (df : DataFrame) (c : String) (fv : FilterValue) : DataFrame :=
  match colIndex df c with
  | none => df
  | some ci =>
    if ((df.header[ci]?).map (fun p => p.2)).getD false then df
    else
      ⟨df.header,
       df.rows.filter (fun r =>
         match r[ci]? with
         | some (Value.str s) => containsSubstr s (pyStr fv)
         | _ => false)⟩

/-- One iteration of the filter loop of `DataProcessingAgent._apply_filters`:
falsy column or operation skips the filter, the recognised operations apply
elementwise, everything else falls through unchanged. -/
def applyOneFilter (df : DataFrame) (f : FilterSpec) : DataFrame :=
  if f.column = "" ∨ f.operation = "" then df
  else if f.operation = "==" then applyCellFilter df f.column (eqTest f.value)
  else if f.operation = "!=" then applyCellFilter df f.column (neTest f.value)
  else if f.operation = ">" then
    applyCellFilter df f.column
      (relTest (fun a b => decide (b < a)) (fun a b => decide (b < a)) f.value)
  else if f.operation = ">=" then
    applyCellFilter df f.column
      (relTest (fun a b => decide (b ≤ a)) (fun a b => decide (b ≤ a)) f.value)
  else if f.operation = "<" then
    applyCellFilter df f.column
      (relTest (fun a b => decide (a < b)) (fun a b => decide (a < b)) f.value)
  else if f.operation = "<=" then
    applyCellFilter df f.column
      (relTest (fun a b => decide (a ≤ b)) (fun a b => decide (a ≤ b)) f.value)
  else if f.operation = "in" then
    match f.value with
    | FilterValue.list vs => applyCellFilter df f.column (fun v => some (vs.contains v))
    | _ => df
  else if f.operation = "contains" then containsFilter df f.column f.value
  else df

/-- `DataProcessingAgent._apply_filters`: copy the frame (implicit under value
semantics) and apply the filters in the given order. -/
def apply_filters (df : DataFrame) (filters : List FilterSpec) : DataFrame :=
  filters.foldl applyOneFilter df

/-- The `groupby` list and `aggregation` sub-dict of the instructions; a
missing `method` defaults to `"sum"` and a missing `column` to `""`. -/
structure AggInstr where
  groupby : List String
  method : String
  column : String
deriving Repr, DecidableEq

/-- The target-column resolution of `_apply_groupby_aggregation` (lines
93-95): an absent target is replaced by the first numeric column of the
frame, when one exists. The source does not exclude the `groupby` columns. -/
def resolveAggColumn (df : DataFrame) (agg_column : String) : String :=
  if agg_column = "" ∧ (firstNumericColumn df).isSome then
    (firstNumericColumn df).getD ""
  else agg_column

/-- Follows the words of the specification, for comparison with
`resolveAggColumn`: if absent, pick the first numeric column NOT in
`groupByColumns`. -/
def resolveAggColumnSpec (df : DataFrame) (groupby : List String)
    (agg_column : String) : Option String :=
  if agg_column = "" then
    (df.header.find? (fun p => p.2 && !(groupby.contains p.1))).map (fun p => p.1)
  else some agg_column

/-- Header entry at a position; positions always come from `colIndex`, so the
default is never reached. -/
def headerAt (df : DataFrame) (i : ℕ) : String × Bool :=
  (df.header[i]?).getD ("", false)

/-- The group key of one row: its values at the groupby column positions. -/
def keyOfRow (idxs : List ℕ) (r : List Value) : List Value :=
  idxs.map (fun i => (r[i]?).getD (Value.str ""))

/-- Add one row to the group with its key, keeping first-appearance order. -/
def insertGrouped (key : List Value) (r : List Value) :
    List (List Value × List (List Value)) → List (List Value × List (List Value))
  | [] => [(key, [r])]
  | (k, rs) :: gs =>
    if k == key then (k, rs ++ [r]) :: gs else (k, rs) :: insertGrouped key r gs

/-- Partition the rows into groups keyed by the groupby columns. -/
def groupRows (idxs : List ℕ) (rows : List (List Value)) :
    List (List Value × List (List Value)) :=
  rows.foldl (fun gs r => insertGrouped (keyOfRow idxs r) r gs) []

/-- Key ordering for pandas `groupby(..., sort=True)`: numbers numerically,
strings lexicographically; mixed-type keys would raise in recent Python and
get a fixed order here, unexercised by the claims. -/
def valueLtb : Value → Value → Bool
  | Value.num a, Value.num b => decide (a < b)
  | Value.str a, Value.str b => decide (a < b)
  | Value.num _, Value.str _ => true
  | Value.str _, Value.num _ => false

/-- Lexicographic ordering of group-key tuples. -/
def valueListLtb : List Value → List Value → Bool
  | [], [] => false
  | [], _ :: _ => true
  | _ :: _, [] => false
  | a :: as, b :: bs => if a == b then valueListLtb as bs else valueLtb a b

/-- Insertion step of the group sort. -/
def insertSortedGroup (g : List Value × List (List Value)) :
    List (List Value × List (List Value)) → List (List Value × List (List Value))
  | [] => [g]
  | h :: t => if valueListLtb g.1 h.1 then g :: h :: t else h :: insertSortedGroup g t

/-- Sort the groups by key, as pandas does with its default `sort=True`. -/
def sortGroups (gs : List (List Value × List (List Value))) :
    List (List Value × List (List Value)) :=
  gs.foldr insertSortedGroup []

/-- Map a fallible function over a list, failing as a whole on the first
failure — the shape of a raised exception inside a loop. -/
def mapOrFail {α β : Type} (f : α → Option β) : List α → Option (List β)
  | [] => some []
  | a :: as =>
    match f a, mapOrFail f as with
    | some b, some bs => some (b :: bs)
    | _, _ => none

/-- All-numeric view of a column, `none` on any string cell. -/
def allNums : List Value → Option (List ℚ)
  | [] => some []
  | Value.num q :: vs => (allNums vs).map (fun qs => q :: qs)
  | Value.str _ :: _ => none

/-- All-string view of a column, `none` on any numeric cell. -/
def allStrs : List Value → Option (List String)
  | [] => some []
  | Value.str s :: vs => (allStrs vs).map (fun ss => s :: ss)
  | Value.num _ :: _ => none

/-- Pairwise min or max of two cells of equal type; mixed types raise. -/
def minMaxValue (isMin : Bool) (a b : Value) : Option Value :=
  match a, b with
  | Value.num x, Value.num y => some (Value.num (if isMin then min x y else max x y))
  | Value.str x, Value.str y =>
    some (Value.str (if isMin then (if x < y then x else y) else (if x < y then y else x)))
  | _, _ => none

/-- Fold min/max over a column of one group; empty and mixed columns fail. -/
def foldMinMax (isMin : Bool) : List Value → Option Value
  | [] => none
  | v :: vs => vs.foldl (fun acc b => acc.bind (fun a => minMaxValue isMin a b)) (some v)

/-- One pandas aggregation over the values of one group: `sum`, `mean`, `min`,
`max` over numeric cells, string concatenation for `sum` and lexicographic
min/max over all-string cells; anything else (mixed types, unknown method)
raises, which the caller turns into returning the filtered frame. -/
def aggregate (method : String) (vs : List Value) : Option Value :=
  if method = "sum" then
    match allNums vs with
    | some qs => some (Value.num (qs.foldl (fun a b => a + b) 0))
    | none => (allStrs vs).map (fun ss => Value.str (String.join ss))
  else if method = "mean" then
    match allNums vs with
    | some qs =>
      if qs.length = 0 then none
      else some (Value.num (qs.foldl (fun a b => a + b) 0 / (qs.length : ℚ)))
    | none => none
  else if method = "min" then foldMinMax true vs
  else if method = "max" then foldMinMax false vs
  else none

/-- Rename every column called `src` to `dst` (`DataFrame.rename`). -/
def renameColumn (df : DataFrame) (src dst : String) : DataFrame :=
  ⟨df.header.map (fun p => if p.1 == src then (dst, p.2) else p), df.rows⟩

/-- Lines 104-107 of `_apply_groupby_aggregation`: rename
`"{column}_{method}"` to `"{method}_{column}"` when the aggregation already
qualified the name, else rename the plain column unless the qualified name is
already taken. -/
def applyAggRename (df : DataFrame) (agg_column method : String) : DataFrame :=
  let pandasName := agg_column ++ "_" ++ method
  let newName := method ++ "_" ++ agg_column
  let cols := df.header.map (fun p => p.1)
  if cols.contains pandasName then renameColumn df pandasName newName
  else if cols.contains agg_column ∧ ¬ cols.contains newName then
    renameColumn df agg_column newName
  else df

/-- The body of the `try` of `_apply_groupby_aggregation` once the target is
resolved: `none` models any raised exception (missing column, aggregating a
group key, mixed types, unknown method), which the `except` turns into the
unmodified filtered frame. -/
def groupedResult (df : DataFrame) (groupby : List String)
    (method agg_column : String) : Option DataFrame :=
  match mapOrFail (colIndex df) groupby with
  | none => none
  | some idxs =>
    let groups := sortGroups (groupRows idxs df.rows)
    let keyHeader := idxs.map (fun i => headerAt df i)
    if method = "count" then
      some ⟨keyHeader ++ [("count", true)],
            groups.map (fun g => g.1 ++ [Value.num g.2.length])⟩
    else if groupby.contains agg_column then none
    else
      match colIndex df agg_column with
      | none => none
      | some ai =>
        match mapOrFail (fun g : List Value × List (List Value) =>
            aggregate method (g.2.map (fun r => (r[ai]?).getD (Value.str "")))) groups with
        | none => none
        | some aggs =>
          some (applyAggRename
            ⟨keyHeader ++ [(agg_column, (headerAt df ai).2)],
             List.zipWith (fun g a => g.1 ++ [a]) groups aggs⟩
            agg_column method)

/-- `DataProcessingAgent._apply_groupby_aggregation`: empty `groupby` or an
unresolvable (falsy) target column returns the frame unchanged; a raised
exception inside the `try` also returns the frame unchanged. -/
def apply_groupby_aggregation (df : DataFrame) (instr : AggInstr) : DataFrame :=
  if instr.groupby = [] then df
  else if resolveAggColumn df instr.column ≠ "" then
    match groupedResult df instr.groupby instr.method (resolveAggColumn df instr.column) with
    | some g => g
    | none => df
  else df

/-- Two numeric columns where the first one is also the group key. -/
def dfC6 : DataFrame :=
  ⟨[("year", true), ("revenue", true)],
   [[Value.num 2000, Value.num 5], [Value.num 2001, Value.num 3]]⟩

/-- A string group column and one numeric column. -/
def dfC6W : DataFrame :=
  ⟨[("region", false), ("revenue", true)],
   [[Value.str "n", Value.num 5], [Value.str "s", Value.num 3]]⟩

/-- A single numeric `age` column with two rows. -/
def dfC7 : DataFrame :=
  ⟨[("age", true)], [[Value.num 25], [Value.num 35]]⟩

/-- One issue dict `{severity, message}` of the Quality Reviewer. -/
structure Issue where
  severity : String
  message : String
deriving Repr, DecidableEq

/-- The `visualization_info` dict as `_check_for_issues` reads it; a missing
key is modelled as the empty string, falsy in Python like the defaults. -/
structure VizInfo where
  type : String
  x_axis : String
  color : String
deriving Repr, DecidableEq

/-- The part of the `viz_result` dict the reviewer reads. -/
structure VizResult where
  visualization_info : VizInfo
deriving Repr, DecidableEq

/-- Categorical statistics of one column; only `unique_values` is read by the
review rules (missing key defaults to 0 upstream). -/
structure CatStat where
  unique_values : ℕ
deriving Repr, DecidableEq

/-- The part of the data summary the reviewer reads; `none` models a summary
without the `categorical_summary` key. -/
structure DataSummaryQA where
  row_count : ℕ
  categorical_summary : Option (List (String × CatStat))
deriving Repr, DecidableEq

/-- The ASCII quote character the review f-strings place around a keyword. -/
def pyQuote : String := String.singleton (Char.ofNat 39)

/-- Rule 1 of `_check_for_issues`: a pie chart whose x-axis column has more
than 7 unique categorical values draws a warning. -/
def pieIssues (viz : VizInfo) (ds : DataSummaryQA) : List Issue :=
  match ds.categorical_summary with
  | none => []
  | some cats =>
    if viz.type = "pie" then
      match assocFind cats viz.x_axis with
      | some st =>
        if st.unique_values > 7 then
          [⟨"warning", "Pie chart has " ++ toString st.unique_values ++
            " categories, which may be too many for effective visualization. Consider using a bar chart instead."⟩]
        else []
      | none => []
    else []

/-- Rule 2: a bar chart whose x-axis column has more than 15 unique
categorical values draws a warning. -/
def barIssues (viz : VizInfo) (ds : DataSummaryQA) : List Issue :=
  match ds.categorical_summary with
  | none => []
  | some cats =>
    if viz.type = "bar" then
      match assocFind cats viz.x_axis with
      | some st =>
        if st.unique_values > 15 then
          [⟨"warning", "Bar chart has " ++ toString st.unique_values ++
            " categories, which may be difficult to read. Consider filtering to show only top categories."⟩]
        else []
      | none => []
    else []

/-- Rule 3: a scatter chart over more than 50 rows without a color encoding
draws a suggestion. -/
def scatterIssues (viz : VizInfo) (ds : DataSummaryQA) : List Issue :=
  if viz.type = "scatter" ∧ ds.row_count > 50 then
    if viz.color = "" then
      [⟨"suggestion", "For scatter plots with many data points, using color to encode an additional variable can reveal patterns."⟩]
    else []
  else []

/-- The fixed keyword list of rule 4. -/
def important_keywords : List String :=
  ["time", "trend", "compare", "distribution", "relationship", "correlation"]

/-- The elif chain of rule 4 for one keyword found in the requirements. -/
def keywordIssue (viz_type keyword : String) : List Issue :=
  if keyword = "time" ∧ viz_type ≠ "line" ∧ viz_type ≠ "area" then
    [⟨"suggestion", "Requirements mention " ++ pyQuote ++ keyword ++ pyQuote ++
      " which often works best with a line chart or area chart."⟩]
  else if keyword = "trend" ∧ viz_type ≠ "line" then
    [⟨"suggestion", "Requirements mention " ++ pyQuote ++ keyword ++ pyQuote ++
      " which often works best with a line chart."⟩]
  else if keyword = "distribution" ∧ viz_type ≠ "histogram" ∧ viz_type ≠ "density" then
    [⟨"suggestion", "Requirements mention " ++ pyQuote ++ keyword ++ pyQuote ++
      " which often works best with a histogram or density plot."⟩]
  else if keyword = "correlation" ∧ viz_type ≠ "scatter" then
    [⟨"suggestion", "Requirements mention " ++ pyQuote ++ keyword ++ pyQuote ++
      " which often works best with a scatter plot."⟩]
  else []

/-- Rule 4: every keyword found (case-insensitively) in the requirements text
is checked independently against the chart type and its issues accumulate. -/
def keywordIssues (requirements viz_type : String) : List Issue :=
  important_keywords.foldl
    (fun acc kw =>
      if containsSubstr (pyLower requirements) kw then acc ++ keywordIssue viz_type kw
      else acc) []

/-- `QualityAssuranceAgent._check_for_issues`: the issue list grows by
sequential appends of the four independent rule blocks. -/
def check_for_issues (requirements : String) (viz_result : VizResult)
    (ds : DataSummaryQA) : List Issue :=
  (((([] : List Issue) ++ pieIssues viz_result.visualization_info ds)
    ++ barIssues viz_result.visualization_info ds)
    ++ scatterIssues viz_result.visualization_info ds)
    ++ keywordIssues requirements viz_result.visualization_info.type

/-- `QualityAssuranceAgent._calculate_quality_score`: start at 10.0, subtract
2.0 per error, 1.0 per warning, 0.5 per suggestion, floor at 0 at the end. -/
def calculate_quality_score (issues : List Issue) : ℚ :=
  max 0 (issues.foldl
    (fun score issue =>
      if issue.severity = "error" then score - 2
      else if issue.severity = "warning" then score - 1
      else if issue.severity = "suggestion" then score - 1/2
      else score) 10)

/-- The number of issues with the given severity. -/
def countSeverity (sev : String) (issues : List Issue) : ℕ :=
  (issues.filter (fun i => i.severity = sev)).length

/-- The fields of the processed-data dict that the orchestrator passes on. -/
structure ProcessedOut (D V S : Type) where
  data : D
  visualization_info : V
  data_summary : S

/-- The dict returned by `create_visualization`: the generated id and the
rendered markup. -/
structure VizOut (H : Type) where
  viz_id : String
  visualization_html : H

/-- The dict returned by `review_visualization`. -/
structure QAOut (E : Type) where
  explanation : E
  issues : List Issue
  quality_score : ℚ

/-- The user-facing result dict of `process_request`. -/
structure ResponseOk (H E : Type) where
  viz_id : String
  visualization_html : H
  explanation : E
  issues : List Issue
  quality_score : ℚ

/-- The return value of `process_request`: the combined result on success or
the `{"error": str(e)}` dict. -/
inductive Response (H E : Type) where
  | ok (r : ResponseOk H E)
  | error (msg : String)

/-- The full record `_store_visualization` keeps for one id. -/
structure StoredViz (Sch D V S H E : Type) where
  result : ResponseOk H E
  processed_data : ProcessedOut D V S
  requirements : String
  schema_mappings : Sch

/-- The two-tier result store: the in-memory dict and the per-id disk
mirror. -/
structure VizStore (R : Type) where
  mem : List (String × R)
  disk : List (String × R)

/-- The pipeline stages as the orchestrator calls them, each a blocking call
that either returns or raises (`Except.error` carries `str(e)`). The case of
`create_visualization` returning its error dict, which makes the subsequent
`visualization["viz_id"]` subscript raise, is folded into the same error
outcome. `disk_write_ok` says whether the mirror write would succeed; its
failure is swallowed inside `_store_visualization`. -/
structure Stages (Sch Smp D V S H E : Type) where
  map_schema : Except String Sch
  get_sample_data : Except String Smp
  process_data : Sch → Smp → Except String (ProcessedOut D V S)
  create_visualization : D → V → Except String (VizOut H)
  review_visualization : VizOut H → S → Except String (QAOut E)
  disk_write_ok : Bool

/-- `Orchestrator._store_visualization`: write the in-memory dict, then
best-effort mirror to disk with any exception swallowed. -/
def store_visualization {R : Type} (diskOk : Bool) (store : VizStore R)
    (viz_id : String) (data : R) : VizStore R :=
  ⟨assocSet store.mem viz_id data,
   if diskOk then assocSet store.disk viz_id data else store.disk⟩

/-- Stages 1-5 of `process_request`, the body of its `try`. -/
def runPipeline {Sch Smp D V S H E : Type} (st : Stages Sch Smp D V S H E) :
    Except String (Sch × ProcessedOut D V S × VizOut H × QAOut E) := do
  let schema ← st.map_schema
  let sample ← st.get_sample_data
  let pd ← st.process_data schema sample
  let viz ← st.create_visualization pd.data pd.visualization_info
  let qa ← st.review_visualization viz pd.data_summary
  pure (schema, pd, viz, qa)

/-- `Orchestrator.process_request`: on success combine the results, store the
full record under the generated id (memory plus mirror) and return the
user-facing subset; any exception inside the `try` aborts the remaining
stages and returns the error dict with the store untouched. -/
def process_request {Sch Smp D V S H E : Type} (st : Stages Sch Smp D V S H E)
    (requirements : String) (store : VizStore (StoredViz Sch D V S H E)) :
    Response H E × VizStore (StoredViz Sch D V S H E) :=
  match runPipeline st with
  | Except.error e => (Response.error e, store)
  | Except.ok (schema, pd, viz, qa) =>
    (Response.ok ⟨viz.viz_id, viz.visualization_html, qa.explanation, qa.issues,
       qa.quality_score⟩,
     store_visualization st.disk_write_ok store viz.viz_id
       ⟨⟨viz.viz_id, viz.visualization_html, qa.explanation, qa.issues, qa.quality_score⟩,
        pd, requirements, schema⟩)

/-- A concrete stage assignment whose first stage raises. -/
def stW : Stages ℕ ℕ ℕ ℕ ℕ ℕ ℕ :=
  ⟨Except.error "boom", Except.ok 0, fun _ _ => Except.ok ⟨0, 0, 0⟩,
   fun _ _ => Except.ok ⟨"id", 0⟩, fun _ _ => Except.ok ⟨0, [], 10⟩, true⟩

theorem assocFind_nil {α : Type} (k : String) : assocFind ([] : List (String × α)) k = none := rfl

theorem assocFind_cons_eq {α : Type} (hd : String × α) (tl : List (String × α)) (k : String)
    (hk : (hd.1 == k) = true) : assocFind (hd :: tl) k = some hd.2 := by
  unfold assocFind
  simp only [List.find?]
  rw [hk]
  rfl

theorem assocFind_cons_ne {α : Type} (hd : String × α) (tl : List (String × α)) (k : String)
    (hk : (hd.1 == k) = false) : assocFind (hd :: tl) k = assocFind tl k := by
  unfold assocFind
  rw [List.find?_cons_of_neg _ (by simp [hk])]

theorem assocSet_cons_ne {α : Type} (hd : String × α) (tl : List (String × α)) (k : String)
    (v : α) (hk : (hd.1 == k) = false) :
    assocSet (hd :: tl) k v = hd :: assocSet tl k v := by
  unfold assocSet
  rw [List.find?_cons_of_neg _ (by simp [hk])]
  by_cases h2 : (List.find? (fun p => p.1 == k) tl).isSome = true
  · rw [if_pos h2, if_pos h2, List.map_cons, if_neg (by simp [hk])]
  · rw [if_neg h2, if_neg h2, List.cons_append]

theorem assocFind_set_self {α : Type} (l : List (String × α)) (k : String) (v : α) :
    assocFind (assocSet l k v) k = some v := by
  induction l with
  | nil =>
    simp [assocSet, assocFind]
  | cons hd tl ih =>
    by_cases hk : (hd.1 == k) = true
    · have h1 : List.find? (fun p => p.1 == k) (hd :: tl) = some hd :=
        List.find?_cons_of_pos _ hk
      unfold assocSet
      rw [h1]
      simp only [Option.isSome_some, if_pos]
      rw [List.map_cons, if_pos hk]
      exact assocFind_cons_eq _ _ _ (by simp)
    · rw [assocSet_cons_ne _ _ _ _ (by simpa using hk)]
      rw [assocFind_cons_ne _ _ _ (by simpa using hk)]
      exact ih

theorem assocFind_map_set_ne {α : Type} (l : List (String × α)) (k k' : String) (v : α)
    (h : k' ≠ k) :
    assocFind (l.map (fun p => if p.1 == k then (k, v) else p)) k' = assocFind l k' := by
  induction l with
  | nil => rfl
  | cons hd tl ih =>
    rw [List.map_cons]
    by_cases hk : (hd.1 == k) = true
    · rw [if_pos hk]
      have hkk' : ((k, v).1 == k') = false := by
        simp only [beq_eq_false_iff_ne]
        exact fun hkk => h hkk.symm
      have hd' : (hd.1 == k') = false := by
        simp only [beq_iff_eq] at hk
        simp only [beq_eq_false_iff_ne, hk]
        exact fun hkk => h hkk.symm
      rw [assocFind_cons_ne _ _ _ hkk', assocFind_cons_ne _ _ _ hd']
      exact ih
    · rw [if_neg hk]
      by_cases hk' : (hd.1 == k') = true
      · rw [assocFind_cons_eq _ _ _ hk', assocFind_cons_eq _ _ _ hk']
      · rw [assocFind_cons_ne _ _ _ (by simpa using hk'),
          assocFind_cons_ne _ _ _ (by simpa using hk')]
        exact ih

theorem assocFind_append_single_ne {α : Type} (l : List (String × α)) (k k' : String) (v : α)
    (h : k' ≠ k) : assocFind (l ++ [(k, v)]) k' = assocFind l k' := by
  unfold assocFind
  rw [List.find?_append]
  have : List.find? (fun p => p.1 == k') [(k, v)] = none := by
    simp only [List.find?_cons, List.find?_nil]
    have : ((k, v).1 == k') = false := by
      simp only [beq_eq_false_iff_ne]
      exact fun hkk => h hkk.symm
    simp [this]
  rw [this]
  cases List.find? (fun p => p.1 == k') l <;> rfl

theorem assocFind_set_ne {α : Type} (l : List (String × α)) (k k' : String) (v : α)
    (h : k' ≠ k) : assocFind (assocSet l k v) k' = assocFind l k' := by
  unfold assocSet
  split
  · exact assocFind_map_set_ne l k k' v h
  · exact assocFind_append_single_ne l k k' v h

/-- C3: for a technical name with no record, `get_mapping` returns the
humanized fallback (underscores to spaces, each word title-cased) and leaves
the store unchanged: no record is created. -/
theorem get_mapping_unseen_fallback (kb : KnowledgeBase) (technical : String)
    (h : kbFind kb technical = none) :
    get_mapping_run kb technical = (some (humanize technical), kb) := by
  simp [get_mapping_run, get_mapping, h]

theorem get_mapping_unseen_fallback_witness :
    kbFind ⟨[]⟩ "cust_id" = none ∧
      get_mapping_run ⟨[]⟩ "cust_id" = (some "Cust Id", (⟨[]⟩ : KnowledgeBase)) := by
  refine ⟨rfl, ?_⟩
  have h := get_mapping_unseen_fallback ⟨[]⟩ "cust_id" rfl
  rw [h]
  decide

/-- C10: for a technical name with no record, `get_all_mappings` returns a
single synthesized entry — humanized label, confidence 0.5, observation count
0, which is below the count 1 that every stored entry starts at — and leaves
the store unchanged. -/
theorem get_all_mappings_unseen (kb : KnowledgeBase) (technical : String)
    (h : kbFind kb technical = none) :
    get_all_mappings_run kb technical = ([⟨humanize technical, 1/2, 0⟩], kb) ∧
      (⟨humanize technical, 1/2, 0⟩ : Entry).count < 1 := by
  refine ⟨?_, Nat.zero_lt_one⟩
  simp [get_all_mappings_run, get_all_mappings, h]

theorem get_all_mappings_unseen_witness :
    kbFind ⟨[]⟩ "order_amt" = none ∧
      get_all_mappings_run ⟨[]⟩ "order_amt" =
        ([⟨"Order Amt", 1/2, 0⟩], (⟨[]⟩ : KnowledgeBase)) ∧
      (0 : ℕ) < 1 := by
  refine ⟨rfl, ?_, Nat.zero_lt_one⟩
  have h := (get_all_mappings_unseen ⟨[]⟩ "order_amt" rfl).1
  have hh : humanize "order_amt" = "Order Amt" := by decide
  rw [h, hh]

theorem updateFirstMatch_some_of_first (business : String) (f : Entry → Entry)
    (es : List Entry) (i : ℕ) (e : Entry)
    (hi : es[i]? = some e) (hm : ciEq e business = true)
    (hfirst : ∀ j e', j < i → es[j]? = some e' → ciEq e' business = false) :
    updateFirstMatch business f es = some (es.set i (f e)) := by
  induction es generalizing i with
  | nil => simp at hi
  | cons hd tl ih =>
    cases i with
    | zero =>
      rw [List.getElem?_cons_zero] at hi
      injection hi with hi
      subst hi
      simp [updateFirstMatch, hm]
    | succ j =>
      have h0 : ciEq hd business = false :=
        hfirst 0 hd (Nat.succ_pos j) List.getElem?_cons_zero
      rw [List.getElem?_cons_succ] at hi
      simp only [updateFirstMatch]
      rw [if_neg (by simp [h0])]
      rw [ih j hi (fun j' e' hj' hje' =>
        hfirst (j' + 1) e' (Nat.succ_lt_succ hj') (by simpa using hje'))]
      rfl

theorem updateFirstMatch_none_iff (business : String) (f : Entry → Entry) (es : List Entry) :
    updateFirstMatch business f es = none ↔ ∀ e ∈ es, ciEq e business = false := by
  induction es with
  | nil => simp [updateFirstMatch]
  | cons hd tl ih =>
    simp only [updateFirstMatch]
    by_cases h : ciEq hd business = true
    · simp [h]
    · have h' : ciEq hd business = false := by simpa using h
      simp [h', Option.map_eq_none', ih]

theorem updateFirstMatch_some_spec (business : String) (f : Entry → Entry)
    (es es' : List Entry) (h : updateFirstMatch business f es = some es') :
    ∃ j e₀, es[j]? = some e₀ ∧ ciEq e₀ business = true ∧ es' = es.set j (f e₀) := by
  induction es generalizing es' with
  | nil => simp [updateFirstMatch] at h
  | cons hd tl ih =>
    simp only [updateFirstMatch] at h
    by_cases hc : ciEq hd business = true
    · rw [if_pos hc] at h
      injection h with h
      exact ⟨0, hd, List.getElem?_cons_zero, hc, by simp [← h]⟩
    · rw [if_neg hc] at h
      cases hu : updateFirstMatch business f tl with
      | none => rw [hu] at h; simp at h
      | some tl' =>
        rw [hu] at h
        simp only [Option.map_some'] at h
        injection h with h
        obtain ⟨j, e₀, hj, hc₀, hset⟩ := ih tl' hu
        refine ⟨j + 1, e₀, by simpa using hj, hc₀, ?_⟩
        rw [← h, hset]
        rfl

theorem kbFind_mem (kb : KnowledgeBase) (t : String) (es : List Entry)
    (h : kbFind kb t = some es) : (t, es) ∈ kb.mappings := by
  unfold kbFind assocFind at h
  cases hf : kb.mappings.find? (fun p => p.1 == t) with
  | none => rw [hf] at h; simp at h
  | some p =>
    rw [hf] at h
    simp only [Option.map_some'] at h
    have hp : (p.1 == t) = true := by
      have hps := List.find?_some hf
      simpa using hps
    have hmem := List.mem_of_find?_eq_some hf
    have hpt : p = (t, es) := by
      cases p
      simp only [beq_iff_eq] at hp
      simp_all
    rw [← hpt]
    exact hmem

theorem add_mappings_single (kb : KnowledgeBase) (t b : String) (c : ℚ) :
    add_mappings kb [(t, b)] c = add_mapping_pair kb t b c := by
  simp [add_mappings]

theorem add_mapping_pair_unseen (kb : KnowledgeBase) (t b : String) (c : ℚ)
    (h : kbFind kb t = none) :
    add_mapping_pair kb t b c = ⟨assocSet kb.mappings t [⟨b, c, 1⟩]⟩ := by
  unfold add_mapping_pair
  rw [h]

theorem add_mapping_pair_matched (kb : KnowledgeBase) (t b : String) (c : ℚ)
    (es es' : List Entry) (h : kbFind kb t = some es)
    (hu : updateFirstMatch b mergeUpdate es = some es') :
    add_mapping_pair kb t b c = ⟨assocSet kb.mappings t es'⟩ := by
  unfold add_mapping_pair
  rw [h]
  dsimp only
  rw [hu]

theorem add_mapping_pair_unmatched (kb : KnowledgeBase) (t b : String) (c : ℚ)
    (es : List Entry) (h : kbFind kb t = some es)
    (hu : updateFirstMatch b mergeUpdate es = none) :
    add_mapping_pair kb t b c = ⟨assocSet kb.mappings t (es ++ [⟨b, c, 1⟩])⟩ := by
  unfold add_mapping_pair
  rw [h]
  dsimp only
  rw [hu]

theorem kbFind_add_mapping_pair_ne (kb : KnowledgeBase) (t b : String) (c : ℚ)
    (t' : String) (ht : t' ≠ t) :
    kbFind (add_mapping_pair kb t b c) t' = kbFind kb t' := by
  cases hfind : kbFind kb t with
  | none =>
    rw [add_mapping_pair_unseen kb t b c hfind]
    exact assocFind_set_ne _ _ _ _ ht
  | some es =>
    cases hupd : updateFirstMatch b mergeUpdate es with
    | some es' =>
      rw [add_mapping_pair_matched kb t b c es es' hfind hupd]
      exact assocFind_set_ne _ _ _ _ ht
    | none =>
      rw [add_mapping_pair_unmatched kb t b c es hfind hupd]
      exact assocFind_set_ne _ _ _ _ ht

/-- C1: merging the same `(technicalName, businessLabel)` pair again finds the
case-insensitively matching candidate, adds exactly 0.05 to its confidence
capped at 1.0, and adds 1 to its observation count; under the data-model bound
`confidence ≤ 1` the update never lowers the confidence, and no candidate of
any record ever loses confidence from a merge call. -/
theorem merge_monotone (kb : KnowledgeBase) (t b : String) (c : ℚ)
    (hconf : ∀ p ∈ kb.mappings, ∀ e ∈ p.2, e.confidence ≤ 1) :
    (∀ (es : List Entry) (i : ℕ) (e : Entry),
      kbFind kb t = some es → es[i]? = some e → ciEq e b = true →
      (∀ (j : ℕ) (e' : Entry), j < i → es[j]? = some e' → ciEq e' b = false) →
      kbFind (add_mappings kb [(t, b)] c) t = some (es.set i (mergeUpdate e)) ∧
      (mergeUpdate e).confidence = min 1 (e.confidence + 1/20) ∧
      (mergeUpdate e).count = e.count + 1 ∧
      e.confidence ≤ (mergeUpdate e).confidence) ∧
    (∀ (t' : String) (es : List Entry) (i : ℕ) (e : Entry),
      kbFind kb t' = some es → es[i]? = some e →
      ∃ e' : Entry,
        (kbFind (add_mappings kb [(t, b)] c) t').bind (fun es' => es'[i]?) = some e' ∧
        e'.business_entity = e.business_entity ∧ e.confidence ≤ e'.confidence) := by
  constructor
  · intro es i e hfind hi hm hfirst
    have hle : e.confidence ≤ 1 :=
      hconf (t, es) (kbFind_mem kb t es hfind) e (List.getElem?_mem hi)
    refine ⟨?_, rfl, rfl, le_min hle (by linarith)⟩
    rw [add_mappings_single]
    rw [add_mapping_pair_matched kb t b c es (es.set i (mergeUpdate e)) hfind
      (updateFirstMatch_some_of_first b _ es i e hi hm hfirst)]
    exact assocFind_set_self _ _ _
  · intro t' es i e hfind hi
    rw [add_mappings_single]
    by_cases ht : t' = t
    · subst ht
      cases hupd : updateFirstMatch b mergeUpdate es with
      | some es' =>
        rw [add_mapping_pair_matched kb t' b c es es' hfind hupd]
        obtain ⟨j, e₀, hj, _, hset⟩ := updateFirstMatch_some_spec _ _ _ _ hupd
        have hfindset :
            kbFind (⟨assocSet kb.mappings t' es'⟩ : KnowledgeBase) t' = some es' :=
          assocFind_set_self _ _ _
        rw [hfindset]
        by_cases hij : j = i
        · subst hij
          have he : e₀ = e := by
            rw [hj] at hi
            injection hi
          subst he
          have hjlt : j < es.length := by
            rcases List.getElem?_eq_some.mp hj with ⟨hl, _⟩
            exact hl
          refine ⟨mergeUpdate e₀, ?_, rfl, ?_⟩
          · rw [hset]
            simp [List.getElem?_set, hjlt]
          · have hle : e₀.confidence ≤ 1 :=
              hconf (t', es) (kbFind_mem kb t' es hfind) e₀ (List.getElem?_mem hj)
            exact le_min hle (by linarith)
        · refine ⟨e, ?_, rfl, le_refl _⟩
          rw [hset]
          simp only [Option.some_bind]
          rw [List.getElem?_set, if_neg hij]
          exact hi
      | none =>
        rw [add_mapping_pair_unmatched kb t' b c es hfind hupd]
        have hfindset : kbFind
            (⟨assocSet kb.mappings t' (es ++ [⟨b, c, 1⟩])⟩ : KnowledgeBase) t' =
            some (es ++ [⟨b, c, 1⟩]) :=
          assocFind_set_self _ _ _
        rw [hfindset]
        have hlt : i < es.length := by
          rcases List.getElem?_eq_some.mp hi with ⟨hl, _⟩
          exact hl
        refine ⟨e, ?_, rfl, le_refl _⟩
        simp only [Option.some_bind]
        rw [List.getElem?_append_left hlt]
        exact hi
    · rw [kbFind_add_mapping_pair_ne kb t b c t' ht, hfind]
      exact ⟨e, by simpa using hi, rfl, le_refl _⟩

theorem add_feedback_matched (kb : KnowledgeBase) (t b : String) (positive : Bool)
    (es es' : List Entry) (h : kbFind kb t = some es)
    (hu : updateFirstMatch b (feedbackUpdate positive) es = some es') :
    add_feedback kb t b positive = ⟨assocSet kb.mappings t es'⟩ := by
  unfold add_feedback
  rw [h]
  dsimp only
  rw [hu]

/-- C4 (amended): negative feedback on an existing, case-insensitively matching
candidate sets its confidence to `max(0.1, confidence - 0.1)` — a strict
decrease exactly when the confidence was above the 0.1 floor, unchanged at the
floor — increments its count, and never removes a candidate: the record keeps
its length. -/
theorem feedback_negative_floor (kb : KnowledgeBase) (t b : String)
    (es : List Entry) (i : ℕ) (e : Entry)
    (hfind : kbFind kb t = some es) (hi : es[i]? = some e) (hm : ciEq e b = true)
    (hfirst : ∀ (j : ℕ) (e' : Entry), j < i → es[j]? = some e' → ciEq e' b = false) :
    kbFind (add_feedback kb t b false) t = some (es.set i (feedbackUpdate false e)) ∧
    (feedbackUpdate false e).confidence = max (1/10) (e.confidence - 1/10) ∧
    (feedbackUpdate false e).count = e.count + 1 ∧
    (es.set i (feedbackUpdate false e)).length = es.length ∧
    (1/10 : ℚ) ≤ (feedbackUpdate false e).confidence ∧
    (1/10 < e.confidence → (feedbackUpdate false e).confidence < e.confidence) := by
  refine ⟨?_, rfl, rfl, List.length_set .., le_max_left _ _, ?_⟩
  · rw [add_feedback_matched kb t b false es _ hfind
      (updateFirstMatch_some_of_first b _ es i e hi hm hfirst)]
    exact assocFind_set_self _ _ _
  · intro hgt
    have hlt : max (1/10 : ℚ) (e.confidence - 1/10) < e.confidence :=
      max_lt hgt (by linarith)
    exact hlt

theorem feedback_negative_floor_witness :
    kbFind (add_feedback kbC1 "c" "x" false) "c" = some [⟨"X", 7/10, 2⟩] ∧
      (7/10 : ℚ) < 4/5 := by
  have h := feedback_negative_floor kbC1 "c" "x" [⟨"X", 4/5, 1⟩] 0 ⟨"X", 4/5, 1⟩
    rfl rfl (by decide) (fun j e' hj _ => absurd hj (Nat.not_lt_zero j))
  have hsub : (4/5 : ℚ) - 1/10 = 7/10 := by norm_num
  have hmax : max (1/10 : ℚ) ((4/5 : ℚ) - 1/10) = 7/10 := by
    rw [hsub]
    exact max_eq_right (by norm_num)
  constructor
  · have h1 := h.1
    simp only [List.set_cons_zero] at h1
    rw [h1,
      show feedbackUpdate false ⟨"X", 4/5, 1⟩ = ⟨"X", max (1/10) ((4/5 : ℚ) - 1/10), 2⟩ from rfl,
      hmax]
  · have h2 := h.2.2.2.2.2 (by norm_num)
    rw [show (feedbackUpdate false ⟨"X", 4/5, 1⟩).confidence =
      max (1/10) ((4/5 : ℚ) - 1/10) from rfl, hmax] at h2
    exact h2

theorem kbC4_reached :
    applyOps ⟨[]⟩
      [KBOp.feedback "col" "X" false, KBOp.feedback "col" "X" false,
       KBOp.feedback "col" "X" false, KBOp.feedback "col" "X" false] = kbC4 := by
  unfold applyOps
  simp only [List.foldl_cons, List.foldl_nil, applyOp]
  rw [show add_feedback ⟨[]⟩ "col" "X" false = ⟨[("col", [⟨"X", 2/5, 1⟩])]⟩ from rfl]
  rw [show add_feedback ⟨[("col", [⟨"X", 2/5, 1⟩])]⟩ "col" "X" false =
    ⟨[("col", [⟨"X", max (1/10) ((2/5 : ℚ) - 1/10), 2⟩])]⟩ from rfl]
  rw [show (2/5 : ℚ) - 1/10 = 3/10 from by norm_num,
    show max (1/10 : ℚ) (3/10) = 3/10 from max_eq_right (by norm_num)]
  rw [show add_feedback ⟨[("col", [⟨"X", 3/10, 2⟩])]⟩ "col" "X" false =
    ⟨[("col", [⟨"X", max (1/10) ((3/10 : ℚ) - 1/10), 3⟩])]⟩ from rfl]
  rw [show (3/10 : ℚ) - 1/10 = 1/5 from by norm_num,
    show max (1/10 : ℚ) (1/5) = 1/5 from max_eq_right (by norm_num)]
  rw [show add_feedback ⟨[("col", [⟨"X", 1/5, 3⟩])]⟩ "col" "X" false =
    ⟨[("col", [⟨"X", max (1/10) ((1/5 : ℚ) - 1/10), 4⟩])]⟩ from rfl]
  rw [show (1/5 : ℚ) - 1/10 = 1/10 from by norm_num, max_self]
  rfl

/-- C4 counterexample: in the store `kbC4` (reachable by four negative
feedback calls from empty) the matching candidate sits at confidence 0.1, and
one more negative feedback leaves its confidence at exactly 0.1 — no strict
decrease happens. -/
theorem feedback_negative_cex :
    applyOps ⟨[]⟩
      [KBOp.feedback "col" "X" false, KBOp.feedback "col" "X" false,
       KBOp.feedback "col" "X" false, KBOp.feedback "col" "X" false] = kbC4 ∧
    kbFind kbC4 "col" = some [⟨"X", 1/10, 4⟩] ∧
    kbFind (add_feedback kbC4 "col" "X" false) "col" = some [⟨"X", 1/10, 5⟩] ∧
    ¬ ((1/10 : ℚ) < 1/10) := by
  refine ⟨kbC4_reached, rfl, ?_, lt_irrefl _⟩
  rw [show add_feedback kbC4 "col" "X" false =
    ⟨[("col", [⟨"X", max (1/10) ((1/10 : ℚ) - 1/10), 5⟩])]⟩ from rfl]
  rw [show (1/10 : ℚ) - 1/10 = 0 from by norm_num,
    show max (1/10 : ℚ) 0 = 1/10 from max_eq_left (by norm_num)]
  rfl

theorem add_feedback_unseen (kb : KnowledgeBase) (t b : String) (positive : Bool)
    (h : kbFind kb t = none) :
    add_feedback kb t b positive =
      ⟨assocSet kb.mappings t [⟨b, if positive then 3/5 else 2/5, 1⟩]⟩ := by
  unfold add_feedback
  rw [h]

theorem add_feedback_unmatched (kb : KnowledgeBase) (t b : String) (positive : Bool)
    (es : List Entry) (h : kbFind kb t = some es)
    (hu : updateFirstMatch b (feedbackUpdate positive) es = none) :
    add_feedback kb t b positive =
      if positive then ⟨assocSet kb.mappings t (es ++ [⟨b, 3/5, 1⟩])⟩ else kb := by
  unfold add_feedback
  rw [h]
  dsimp only
  rw [hu]

theorem labels_updateFirstMatch (business : String) (f : Entry → Entry)
    (hf : ∀ e, (f e).business_entity = e.business_entity)
    (es es' : List Entry) (h : updateFirstMatch business f es = some es') :
    labels es' = labels es := by
  induction es generalizing es' with
  | nil => simp [updateFirstMatch] at h
  | cons hd tl ih =>
    simp only [updateFirstMatch] at h
    by_cases hc : ciEq hd business = true
    · rw [if_pos hc] at h
      injection h with h
      subst h
      unfold labels
      simp [hf hd]
    · rw [if_neg hc] at h
      cases hu : updateFirstMatch business f tl with
      | none => rw [hu] at h; simp at h
      | some tl' =>
        rw [hu] at h
        simp only [Option.map_some'] at h
        injection h with h
        subst h
        unfold labels
        simp only [List.map_cons]
        have htl := ih tl' hu
        unfold labels at htl
        rw [htl]

theorem ciDistinct_append_new (es : List Entry) (e' : Entry)
    (hd : ciDistinct es) (hb : ∀ e ∈ es, ciEq e e'.business_entity = false) :
    ciDistinct (es ++ [e']) := by
  unfold ciDistinct labels
  rw [List.map_append]
  refine List.pairwise_append.mpr ⟨hd, List.pairwise_singleton _ _, ?_⟩
  intro a ha b' hb'
  obtain ⟨e₀, he₀, hae⟩ := List.mem_map.mp ha
  simp only [List.map_cons, List.map_nil, List.mem_singleton] at hb'
  subst hae
  subst hb'
  have := hb e₀ he₀
  unfold ciEq at this
  exact fun hcontra => by simp [hcontra] at this

theorem kbCIUnique_set (l : List (String × List Entry)) (k : String) (es : List Entry)
    (h : ∀ p ∈ l, ciDistinct p.2) (hes : ciDistinct es) :
    ∀ p ∈ assocSet l k es, ciDistinct p.2 := by
  intro p hp
  unfold assocSet at hp
  split at hp
  · obtain ⟨q, hq, hpq⟩ := List.mem_map.mp hp
    by_cases hk : (q.1 == k) = true
    · rw [if_pos hk] at hpq
      rw [← hpq]
      exact hes
    · rw [if_neg hk] at hpq
      rw [← hpq]
      exact h q hq
  · rcases List.mem_append.mp hp with hl | hr
    · exact h p hl
    · simp only [List.mem_singleton] at hr
      rw [hr]
      exact hes

theorem kbCIUnique_add_mapping_pair (kb : KnowledgeBase) (t b : String) (c : ℚ)
    (h : kbCIUnique kb) : kbCIUnique (add_mapping_pair kb t b c) := by
  cases hfind : kbFind kb t with
  | none =>
    rw [add_mapping_pair_unseen kb t b c hfind]
    exact kbCIUnique_set kb.mappings t _ h (by simp [ciDistinct, labels])
  | some es =>
    cases hupd : updateFirstMatch b mergeUpdate es with
    | some es' =>
      rw [add_mapping_pair_matched kb t b c es es' hfind hupd]
      have hes : ciDistinct es := h (t, es) (kbFind_mem kb t es hfind)
      have hes' : ciDistinct es' := by
        unfold ciDistinct
        rw [labels_updateFirstMatch b mergeUpdate (fun e => rfl) es es' hupd]
        exact hes
      exact kbCIUnique_set kb.mappings t es' h hes'
    | none =>
      rw [add_mapping_pair_unmatched kb t b c es hfind hupd]
      have hes : ciDistinct es := h (t, es) (kbFind_mem kb t es hfind)
      have hnone : ∀ e ∈ es, ciEq e b = false :=
        (updateFirstMatch_none_iff b mergeUpdate es).mp hupd
      exact kbCIUnique_set kb.mappings t _ h (ciDistinct_append_new es ⟨b, c, 1⟩ hes hnone)

theorem kbCIUnique_add_feedback (kb : KnowledgeBase) (t b : String) (positive : Bool)
    (h : kbCIUnique kb) : kbCIUnique (add_feedback kb t b positive) := by
  cases hfind : kbFind kb t with
  | none =>
    rw [add_feedback_unseen kb t b positive hfind]
    exact kbCIUnique_set kb.mappings t _ h (by simp [ciDistinct, labels])
  | some es =>
    cases hupd : updateFirstMatch b (feedbackUpdate positive) es with
    | some es' =>
      rw [add_feedback_matched kb t b positive es es' hfind hupd]
      have hes : ciDistinct es := h (t, es) (kbFind_mem kb t es hfind)
      have hes' : ciDistinct es' := by
        unfold ciDistinct
        rw [labels_updateFirstMatch b (feedbackUpdate positive) (fun e => rfl) es es' hupd]
        exact hes
      exact kbCIUnique_set kb.mappings t es' h hes'
    | none =>
      rw [add_feedback_unmatched kb t b positive es hfind hupd]
      cases positive with
      | false => simpa using h
      | true =>
        have hes : ciDistinct es := h (t, es) (kbFind_mem kb t es hfind)
        have hnone : ∀ e ∈ es, ciEq e b = false :=
          (updateFirstMatch_none_iff b (feedbackUpdate true) es).mp hupd
        simp only [if_true]
        exact kbCIUnique_set kb.mappings t _ h
          (ciDistinct_append_new es ⟨b, 3/5, 1⟩ hes hnone)

theorem kbCIUnique_add_mappings (kb : KnowledgeBase) (pairs : List (String × String))
    (c : ℚ) (h : kbCIUnique kb) : kbCIUnique (add_mappings kb pairs c) := by
  induction pairs generalizing kb with
  | nil => exact h
  | cons p ps ih =>
    have hstep : add_mappings kb (p :: ps) c =
        add_mappings (add_mapping_pair kb p.1 p.2 c) ps c := by
      simp [add_mappings, List.foldl_cons]
    rw [hstep]
    exact ih _ (kbCIUnique_add_mapping_pair kb p.1 p.2 c h)

/-- C5: starting from a store whose records have case-insensitively distinct
candidate labels, any sequence of merge and feedback operations preserves that
uniqueness — both operations update a matching candidate in place instead of
appending a duplicate. -/
theorem ci_unique_invariant (kb : KnowledgeBase) (ops : List KBOp)
    (h : kbCIUnique kb) : kbCIUnique (applyOps kb ops) := by
  induction ops generalizing kb with
  | nil => exact h
  | cons op ops ih =>
    have hstep : applyOps kb (op :: ops) = applyOps (applyOp kb op) ops := by
      simp [applyOps, List.foldl_cons]
    rw [hstep]
    apply ih
    cases op with
    | merge pairs c => exact kbCIUnique_add_mappings kb pairs c h
    | feedback t b pos => exact kbCIUnique_add_feedback kb t b pos h

theorem ci_unique_invariant_witness :
    kbCIUnique kbC1 ∧
      kbCIUnique (applyOps kbC1
        [KBOp.merge [("c", "Customer")] (4/5), KBOp.feedback "c" "x" true]) := by
  have hk : kbCIUnique kbC1 := by decide
  exact ⟨hk, ci_unique_invariant kbC1
    [KBOp.merge [("c", "Customer")] (4/5), KBOp.feedback "c" "x" true] hk⟩

theorem keyLt_trans {a b c : Entry} (h1 : keyLt a b) (h2 : keyLt b c) : keyLt a c := by
  rcases h1 with h1 | ⟨he1, hc1⟩ <;> rcases h2 with h2 | ⟨he2, hc2⟩
  · exact Or.inl (lt_trans h1 h2)
  · exact Or.inl (he2 ▸ h1)
  · exact Or.inl (he1 ▸ h2)
  · exact Or.inr ⟨he1.trans he2, lt_trans hc1 hc2⟩

theorem keyLt_irrefl (a : Entry) : ¬ keyLt a a := by
  rintro (h | ⟨_, h⟩) <;> exact lt_irrefl _ h

theorem not_keyLt (a b : Entry) (h : ¬ keyLt b a) :
    keyLt a b ∨ (a.confidence = b.confidence ∧ a.count = b.count) := by
  rcases lt_trichotomy a.confidence b.confidence with hc | hc | hc
  · exact Or.inl (Or.inl hc)
  · rcases lt_trichotomy a.count b.count with hn | hn | hn
    · exact Or.inl (Or.inr ⟨hc, hn⟩)
    · exact Or.inr ⟨hc, hn⟩
    · exact absurd (Or.inr ⟨hc.symm, hn⟩ : keyLt b a) h
  · exact absurd (Or.inl hc : keyLt b a) h

theorem keyLt_congr_right {a x b : Entry}
    (hx : x.confidence = b.confidence ∧ x.count = b.count) (h : keyLt a x) : keyLt a b := by
  rcases h with h | ⟨he, hc⟩
  · exact Or.inl (hx.1 ▸ h)
  · exact Or.inr ⟨he.trans hx.1, hx.2 ▸ hc⟩

theorem keyLt_congr_left {x e b : Entry}
    (hx : x.confidence = e.confidence ∧ x.count = e.count) (h : keyLt e b) : keyLt x b := by
  rcases h with h | ⟨he, hc⟩
  · exact Or.inl (hx.1 ▸ h)
  · exact Or.inr ⟨hx.1.trans he, hx.2 ▸ hc⟩

theorem pyMax_spec (e : Entry) (es : List Entry) :
    ∃ i : ℕ, (e :: es)[i]? = some (pyMax e es) ∧
      (∀ (j : ℕ) (x : Entry), (e :: es)[j]? = some x → ¬ keyLt (pyMax e es) x) ∧
      (∀ (j : ℕ) (x : Entry), j < i → (e :: es)[j]? = some x → keyLt x (pyMax e es)) := by
  induction es generalizing e with
  | nil =>
    refine ⟨0, List.getElem?_cons_zero, ?_, ?_⟩
    · intro j x hj
      cases j with
      | zero =>
        rw [List.getElem?_cons_zero] at hj
        injection hj with hj
        subst hj
        exact keyLt_irrefl e
      | succ j =>
        rw [List.getElem?_cons_succ] at hj
        simp at hj
    · intro j x hjlt _
      exact absurd hjlt (Nat.not_lt_zero j)
  | cons x es ih =>
    by_cases hex : keyLt e x
    · have hstep : pyMax e (x :: es) = pyMax x es := by
        simp [pyMax, List.foldl_cons, if_pos hex]
      obtain ⟨i, hi, hub, hfirst⟩ := ih x
      refine ⟨i + 1, ?_, ?_, ?_⟩
      · rw [hstep, List.getElem?_cons_succ]
        exact hi
      · intro j y hj
        rw [hstep]
        cases j with
        | zero =>
          rw [List.getElem?_cons_zero] at hj
          injection hj with hj
          subst hj
          intro hbe
          exact hub 0 x List.getElem?_cons_zero (keyLt_trans hbe hex)
        | succ j =>
          rw [List.getElem?_cons_succ] at hj
          exact hub j y hj
      · intro j y hjlt hj
        rw [hstep]
        cases j with
        | zero =>
          rw [List.getElem?_cons_zero] at hj
          injection hj with hj
          subst hj
          rcases not_keyLt x (pyMax x es) (hub 0 x List.getElem?_cons_zero) with hxb | hxb
          · exact keyLt_trans hex hxb
          · exact keyLt_congr_right hxb hex
        | succ j =>
          rw [List.getElem?_cons_succ] at hj
          exact hfirst j y (Nat.lt_of_succ_lt_succ hjlt) hj
    · have hstep : pyMax e (x :: es) = pyMax e es := by
        simp [pyMax, List.foldl_cons, if_neg hex]
      obtain ⟨i, hi, hub, hfirst⟩ := ih e
      cases i with
      | zero =>
        rw [List.getElem?_cons_zero] at hi
        injection hi with hpe
        refine ⟨0, ?_, ?_, ?_⟩
        · rw [hstep, List.getElem?_cons_zero]
          exact congrArg some hpe
        · intro j y hj
          rw [hstep, ← hpe]
          cases j with
          | zero =>
            rw [List.getElem?_cons_zero] at hj
            injection hj with hj
            subst hj
            exact keyLt_irrefl e
          | succ j =>
            rw [List.getElem?_cons_succ] at hj
            cases j with
            | zero =>
              rw [List.getElem?_cons_zero] at hj
              injection hj with hj
              subst hj
              exact hex
            | succ j =>
              rw [List.getElem?_cons_succ] at hj
              have := hub (j + 1) y (by rw [List.getElem?_cons_succ]; exact hj)
              rw [← hpe] at this
              exact this
        · intro j y hjlt _
          exact absurd hjlt (Nat.not_lt_zero j)
      | succ i' =>
        rw [List.getElem?_cons_succ] at hi
        refine ⟨i' + 2, ?_, ?_, ?_⟩
        · rw [hstep, List.getElem?_cons_succ, List.getElem?_cons_succ]
          exact hi
        · intro j y hj
          rw [hstep]
          cases j with
          | zero =>
            rw [List.getElem?_cons_zero] at hj
            injection hj with hj
            subst hj
            exact hub 0 e List.getElem?_cons_zero
          | succ j =>
            rw [List.getElem?_cons_succ] at hj
            cases j with
            | zero =>
              rw [List.getElem?_cons_zero] at hj
              injection hj with hj
              subst hj
              intro hbx
              rcases not_keyLt x e hex with hxe | hxe
              · exact hub 0 e List.getElem?_cons_zero (keyLt_trans hbx hxe)
              · exact hub 0 e List.getElem?_cons_zero (keyLt_congr_right hxe hbx)
            | succ j =>
              rw [List.getElem?_cons_succ] at hj
              exact hub (j + 1) y (by rw [List.getElem?_cons_succ]; exact hj)
        · intro j y hjlt hj
          rw [hstep]
          cases j with
          | zero =>
            rw [List.getElem?_cons_zero] at hj
            injection hj with hj
            subst hj
            exact hfirst 0 e (Nat.succ_pos i') List.getElem?_cons_zero
          | succ j =>
            rw [List.getElem?_cons_succ] at hj
            cases j with
            | zero =>
              rw [List.getElem?_cons_zero] at hj
              injection hj with hj
              subst hj
              have heb : keyLt e (pyMax e es) :=
                hfirst 0 e (Nat.succ_pos i') List.getElem?_cons_zero
              rcases not_keyLt x e hex with hxe | hxe
              · exact keyLt_trans hxe heb
              · exact keyLt_congr_left hxe heb
            | succ j =>
              rw [List.getElem?_cons_succ] at hj
              exact hfirst (j + 1) y (by omega)
                (by rw [List.getElem?_cons_succ]; exact hj)

/-- C2: for an existing record, `get_mapping` returns the label of the
candidate with the highest `(confidence, observationCount)` tuple, a tie on
that tuple going to the first-inserted candidate; in particular two candidates
at confidence 0.9 with counts 2 and 5 resolve to the count-5 candidate. -/
theorem get_mapping_best :
    (∀ (kb : KnowledgeBase) (t : String) (e : Entry) (es : List Entry),
      kbFind kb t = some (e :: es) →
      ∃ i : ℕ, get_mapping kb t = some (pyMax e es).business_entity ∧
        (e :: es)[i]? = some (pyMax e es) ∧
        (∀ (j : ℕ) (x : Entry), (e :: es)[j]? = some x → ¬ keyLt (pyMax e es) x) ∧
        (∀ (j : ℕ) (x : Entry), j < i → (e :: es)[j]? = some x →
          keyLt x (pyMax e es))) ∧
    get_mapping kbC2 "col" = some "B" := by
  have huniv : ∀ (kb : KnowledgeBase) (t : String) (e : Entry) (es : List Entry),
      kbFind kb t = some (e :: es) →
      ∃ i : ℕ, get_mapping kb t = some (pyMax e es).business_entity ∧
        (e :: es)[i]? = some (pyMax e es) ∧
        (∀ (j : ℕ) (x : Entry), (e :: es)[j]? = some x → ¬ keyLt (pyMax e es) x) ∧
        (∀ (j : ℕ) (x : Entry), j < i → (e :: es)[j]? = some x →
          keyLt x (pyMax e es)) := by
    intro kb t e es h
    obtain ⟨i, hi, hub, hfirst⟩ := pyMax_spec e es
    refine ⟨i, ?_, hi, hub, hfirst⟩
    unfold get_mapping
    rw [h]
  refine ⟨huniv, ?_⟩
  obtain ⟨i, hres, _⟩ := huniv kbC2 "col" ⟨"A", 9/10, 2⟩ [⟨"B", 9/10, 5⟩] rfl
  rw [hres]
  have hAB : keyLt ⟨"A", 9/10, 2⟩ ⟨"B", 9/10, 5⟩ := Or.inr ⟨rfl, by norm_num⟩
  simp [pyMax, hAB]

theorem get_mapping_best_witness :
    kbFind kbC2 "col" = some [⟨"A", 9/10, 2⟩, ⟨"B", 9/10, 5⟩] ∧
      get_mapping kbC2 "col" = some "B" := by
  constructor
  · rfl
  · have h := get_mapping_best.1 kbC2 "col" ⟨"A", 9/10, 2⟩ [⟨"B", 9/10, 5⟩] rfl
    obtain ⟨i, hres, _⟩ := h
    rw [hres]
    have hAB : keyLt ⟨"A", 9/10, 2⟩ ⟨"B", 9/10, 5⟩ := Or.inr ⟨rfl, by norm_num⟩
    simp [pyMax, hAB]

theorem merge_monotone_witness :
    kbFind (add_mappings kbC1 [("c", "x")] (4/5)) "c" = some [⟨"X", 17/20, 2⟩] ∧
      (4/5 : ℚ) ≤ 17/20 := by
  have hconf : ∀ p ∈ kbC1.mappings, ∀ e ∈ p.2, e.confidence ≤ 1 := by
    intro p hp e he
    simp only [kbC1, List.mem_singleton] at hp
    subst hp
    simp only [List.mem_singleton] at he
    subst he
    norm_num
  have h := (merge_monotone kbC1 "c" "x" (4/5) hconf).1 [⟨"X", 4/5, 1⟩] 0 ⟨"X", 4/5, 1⟩
    rfl rfl (by decide) (fun j e' hj _ => absurd hj (Nat.not_lt_zero j))
  have harith : min (1 : ℚ) (4/5 + 1/20) = 17/20 := by
    rw [show (4/5 : ℚ) + 1/20 = 17/20 by norm_num]
    exact min_eq_right (by norm_num)
  constructor
  · have h1 := h.1
    simp only [List.set_cons_zero] at h1
    rw [h1]
    simp only [mergeUpdate]
    rw [harith]
  · have h2 := h.2.2.2
    simp only [mergeUpdate] at h2
    rw [harith] at h2
    exact h2

/-- C6 counterexample: with both columns numeric and the first one used as the
group key, the applier picks the group key itself as aggregation target — not
the first numeric column outside `groupByColumns` that the claim names. -/
theorem groupby_target_cex :
    resolveAggColumn dfC6 "" = "year" ∧
    resolveAggColumnSpec dfC6 ["year"] "" = some "revenue" ∧
    (["year"] : List String).contains (resolveAggColumn dfC6 "") = true :=
  ⟨rfl, rfl, rfl⟩

/-- C6 (amended): with a non-empty `groupby` and an absent target column the
applier takes the first numeric column of the whole frame as target — even one
listed in `groupByColumns` — and when the frame has no numeric column at all
it skips aggregation and returns the filtered-but-ungrouped frame unchanged. -/
theorem groupby_target_amended (df : DataFrame) (instr : AggInstr)
    (hg : instr.groupby ≠ []) (hc : instr.column = "") :
    (firstNumericColumn df = none → apply_groupby_aggregation df instr = df) ∧
    (∀ c : String, firstNumericColumn df = some c → c ≠ "" →
      resolveAggColumn df instr.column = c ∧
      apply_groupby_aggregation df instr =
        (groupedResult df instr.groupby instr.method c).getD df) := by
  constructor
  · intro hnone
    have hres : resolveAggColumn df instr.column = "" := by
      unfold resolveAggColumn
      rw [hc, hnone]
      simp
    unfold apply_groupby_aggregation
    rw [if_neg hg, hres]
    simp
  · intro c hsome hne
    have hres : resolveAggColumn df instr.column = c := by
      unfold resolveAggColumn
      rw [hc, hsome]
      simp
    refine ⟨hres, ?_⟩
    unfold apply_groupby_aggregation
    rw [if_neg hg, hres, if_pos hne]
    cases hgr : groupedResult df instr.groupby instr.method c with
    | some g => rfl
    | none => rfl

theorem groupby_target_amended_witness :
    resolveAggColumn dfC6W "" = "revenue" ∧
      apply_groupby_aggregation dfC6W ⟨["region"], "sum", ""⟩ =
        (groupedResult dfC6W ["region"] "sum" "revenue").getD dfC6W := by
  exact (groupby_target_amended dfC6W ⟨["region"], "sum", ""⟩ (by decide) rfl).2
    "revenue" rfl (by decide)

theorem filterOrFail_total (test : List Value → Option Bool)
    (rows : List (List Value)) (h : ∀ r ∈ rows, (test r).isSome) :
    filterOrFail test rows = some (rows.filter (fun r => (test r).getD false)) := by
  induction rows with
  | nil => rfl
  | cons r rs ih =>
    obtain ⟨b, hb⟩ := Option.isSome_iff_exists.mp (h r (List.mem_cons_self r rs))
    have ihr := ih (fun r' hr' => h r' (List.mem_cons_of_mem _ hr'))
    simp only [filterOrFail, hb, ihr]
    cases b <;> simp [List.filter_cons, hb]

/-- C7: an `in` filter whose value is not a list leaves the frame unchanged —
the filter is skipped, nothing raises — while a well-formed greater-than
filter on a numeric column keeps exactly the rows whose value exceeds the
threshold. -/
theorem filters_gt_and_isin :
    (∀ (df : DataFrame) (ci : ℕ) (q : ℚ), colIndex df "age" = some ci →
      (∀ r ∈ df.rows, ∃ x : ℚ, r[ci]? = some (Value.num x)) →
      apply_filters df [⟨"age", ">", FilterValue.num q⟩] =
        ⟨df.header, df.rows.filter (fun r =>
          match r[ci]? with
          | some (Value.num x) => decide (q < x)
          | _ => false)⟩) ∧
    (∀ (df : DataFrame) (f : FilterSpec), f.operation = "in" →
      (∀ vs : List Value, f.value ≠ FilterValue.list vs) → applyOneFilter df f = df) := by
  constructor
  · intro df ci q hci hall
    unfold apply_filters
    simp only [List.foldl_cons, List.foldl_nil]
    unfold applyOneFilter
    dsimp only
    rw [if_neg (by decide), if_neg (by decide), if_neg (by decide), if_pos (by decide)]
    unfold applyCellFilter
    rw [hci]
    dsimp only
    have htot : ∀ r ∈ df.rows,
        ((r[ci]?).bind (relTest (fun a b => decide (b < a)) (fun a b => decide (b < a))
          (FilterValue.num q))).isSome := by
      intro r hr
      obtain ⟨x, hx⟩ := hall r hr
      rw [hx]
      rfl
    rw [filterOrFail_total _ _ htot]
    dsimp only
    congr 1
    apply List.filter_congr
    intro r hr
    obtain ⟨x, hx⟩ := hall r hr
    rw [hx]
    rfl
  · intro df f hop hnl
    obtain ⟨col, op, v⟩ := f
    dsimp only at hop hnl
    subst hop
    unfold applyOneFilter
    dsimp only
    by_cases hcol : col = ""
    · rw [if_pos (Or.inl hcol)]
    · rw [if_neg (by simp [hcol])]
      rw [if_neg (by decide), if_neg (by decide), if_neg (by decide), if_neg (by decide),
        if_neg (by decide), if_neg (by decide), if_pos rfl]
      cases v with
      | num q => rfl
      | str s => rfl
      | null => rfl
      | list vs => exact absurd rfl (hnl vs)

theorem filters_gt_and_isin_witness :
    colIndex dfC7 "age" = some 0 ∧
    apply_filters dfC7 [⟨"age", ">", FilterValue.num 30⟩] =
      ⟨[("age", true)], [[Value.num 35]]⟩ ∧
    applyOneFilter dfC7 ⟨"age", "in", FilterValue.num 30⟩ = dfC7 := by
  refine ⟨rfl, ?_, ?_⟩
  · have hall : ∀ r ∈ dfC7.rows, ∃ x : ℚ, r[0]? = some (Value.num x) := by
      intro r hr
      replace hr : r ∈ [[Value.num 25], [Value.num 35]] := hr
      rcases List.mem_cons.mp hr with rfl | hr
      · exact ⟨25, rfl⟩
      · rcases List.mem_cons.mp hr with rfl | hr
        · exact ⟨35, rfl⟩
        · exact absurd hr (List.not_mem_nil r)
    have h := filters_gt_and_isin.1 dfC7 0 30 rfl hall
    rw [h]
    decide
  · exact filters_gt_and_isin.2 dfC7 ⟨"age", "in", FilterValue.num 30⟩ rfl
      (fun vs h => FilterValue.noConfusion h)

theorem score_foldl (issues : List Issue) : ∀ s : ℚ,
    issues.foldl (fun score issue =>
      if issue.severity = "error" then score - 2
      else if issue.severity = "warning" then score - 1
      else if issue.severity = "suggestion" then score - 1/2
      else score) s
    = s - 2 * (countSeverity "error" issues : ℚ)
        - (countSeverity "warning" issues : ℚ)
        - (1/2) * (countSeverity "suggestion" issues : ℚ) := by
  induction issues with
  | nil =>
    intro s
    simp [countSeverity]
  | cons i is ih =>
    intro s
    rw [List.foldl_cons]
    by_cases he : i.severity = "error"
    · rw [if_pos he, ih]
      unfold countSeverity
      simp only [List.filter_cons, he]
      norm_num
      push_cast
      ring
    · rw [if_neg he]
      by_cases hw : i.severity = "warning"
      · rw [if_pos hw, ih]
        unfold countSeverity
        simp only [List.filter_cons, hw]
        norm_num
        push_cast
        ring
      · rw [if_neg hw]
        by_cases hs : i.severity = "suggestion"
        · rw [if_pos hs, ih]
          unfold countSeverity
          simp only [List.filter_cons, hs]
          norm_num
          push_cast
          ring
        · rw [if_neg hs, ih]
          unfold countSeverity
          simp only [List.filter_cons]
          simp [he, hw, hs]

/-- C8: the quality score equals 10 minus 2 per error-severity issue, 1 per
warning and 0.5 per suggestion, floored at 0 and never above the starting 10;
and the rule set accumulates all issues — the reviewer output is the
concatenation of the four independent rule outputs, with every keyword
contributing separately inside the fourth. -/
theorem quality_score_formula :
    (∀ issues : List Issue,
      calculate_quality_score issues =
        max 0 (10 - 2 * (countSeverity "error" issues : ℚ)
          - (countSeverity "warning" issues : ℚ)
          - (1/2) * (countSeverity "suggestion" issues : ℚ)) ∧
      calculate_quality_score issues ≤ 10) ∧
    (∀ (requirements : String) (vr : VizResult) (ds : DataSummaryQA),
      check_for_issues requirements vr ds =
        pieIssues vr.visualization_info ds ++ barIssues vr.visualization_info ds ++
        scatterIssues vr.visualization_info ds ++
        keywordIssues requirements vr.visualization_info.type) := by
  constructor
  · intro issues
    constructor
    · unfold calculate_quality_score
      rw [score_foldl]
    · unfold calculate_quality_score
      rw [score_foldl]
      apply max_le
      · norm_num
      · have h1 : (0 : ℚ) ≤ 2 * (countSeverity "error" issues : ℚ) := by positivity
        have h2 : (0 : ℚ) ≤ (countSeverity "warning" issues : ℚ) := by positivity
        have h3 : (0 : ℚ) ≤ (1/2) * (countSeverity "suggestion" issues : ℚ) := by positivity
        linarith
  · intro requirements vr ds
    unfold check_for_issues
    rw [List.nil_append, List.append_assoc, List.append_assoc]

theorem pipeline_error_stage1 {Sch Smp D V S H E : Type}
    (st : Stages Sch Smp D V S H E) (e : String)
    (h : st.map_schema = Except.error e) : runPipeline st = Except.error e := by
  unfold runPipeline
  simp [h, bind, Except.bind]

theorem pipeline_error_stage2 {Sch Smp D V S H E : Type}
    (st : Stages Sch Smp D V S H E) (e : String) (sch : Sch)
    (h1 : st.map_schema = Except.ok sch)
    (h : st.get_sample_data = Except.error e) : runPipeline st = Except.error e := by
  unfold runPipeline
  simp [h1, h, bind, Except.bind]

theorem pipeline_error_stage3 {Sch Smp D V S H E : Type}
    (st : Stages Sch Smp D V S H E) (e : String) (sch : Sch) (smp : Smp)
    (h1 : st.map_schema = Except.ok sch)
    (h2 : st.get_sample_data = Except.ok smp)
    (h : st.process_data sch smp = Except.error e) : runPipeline st = Except.error e := by
  unfold runPipeline
  simp [h1, h2, h, bind, Except.bind]

theorem pipeline_error_stage4 {Sch Smp D V S H E : Type}
    (st : Stages Sch Smp D V S H E) (e : String) (sch : Sch) (smp : Smp)
    (pd : ProcessedOut D V S)
    (h1 : st.map_schema = Except.ok sch)
    (h2 : st.get_sample_data = Except.ok smp)
    (h3 : st.process_data sch smp = Except.ok pd)
    (h : st.create_visualization pd.data pd.visualization_info = Except.error e) :
    runPipeline st = Except.error e := by
  unfold runPipeline
  simp [h1, h2, h3, h, bind, Except.bind]

theorem pipeline_error_stage5 {Sch Smp D V S H E : Type}
    (st : Stages Sch Smp D V S H E) (e : String) (sch : Sch) (smp : Smp)
    (pd : ProcessedOut D V S) (viz : VizOut H)
    (h1 : st.map_schema = Except.ok sch)
    (h2 : st.get_sample_data = Except.ok smp)
    (h3 : st.process_data sch smp = Except.ok pd)
    (h4 : st.create_visualization pd.data pd.visualization_info = Except.ok viz)
    (h : st.review_visualization viz pd.data_summary = Except.error e) :
    runPipeline st = Except.error e := by
  unfold runPipeline
  simp [h1, h2, h3, h4, h, bind, Except.bind]

/-- C9: whenever any of the five pipeline stages raises, `process_request`
returns the single error dict carrying that message, and the result store —
the in-memory map together with its disk mirror — is exactly the store it
started with: no partial record is written. -/
theorem process_request_error_frame {Sch Smp D V S H E : Type}
    (st : Stages Sch Smp D V S H E) (requirements : String)
    (store : VizStore (StoredViz Sch D V S H E)) (e : String) :
    (st.map_schema = Except.error e →
      process_request st requirements store = (Response.error e, store)) ∧
    (∀ sch : Sch, st.map_schema = Except.ok sch →
      st.get_sample_data = Except.error e →
      process_request st requirements store = (Response.error e, store)) ∧
    (∀ (sch : Sch) (smp : Smp), st.map_schema = Except.ok sch →
      st.get_sample_data = Except.ok smp →
      st.process_data sch smp = Except.error e →
      process_request st requirements store = (Response.error e, store)) ∧
    (∀ (sch : Sch) (smp : Smp) (pd : ProcessedOut D V S),
      st.map_schema = Except.ok sch →
      st.get_sample_data = Except.ok smp →
      st.process_data sch smp = Except.ok pd →
      st.create_visualization pd.data pd.visualization_info = Except.error e →
      process_request st requirements store = (Response.error e, store)) ∧
    (∀ (sch : Sch) (smp : Smp) (pd : ProcessedOut D V S) (viz : VizOut H),
      st.map_schema = Except.ok sch →
      st.get_sample_data = Except.ok smp →
      st.process_data sch smp = Except.ok pd →
      st.create_visualization pd.data pd.visualization_info = Except.ok viz →
      st.review_visualization viz pd.data_summary = Except.error e →
      process_request st requirements store = (Response.error e, store)) := by
  refine ⟨?_, ?_, ?_, ?_, ?_⟩
  · intro h
    unfold process_request
    rw [pipeline_error_stage1 st e h]
  · intro sch h1 h
    unfold process_request
    rw [pipeline_error_stage2 st e sch h1 h]
  · intro sch smp h1 h2 h
    unfold process_request
    rw [pipeline_error_stage3 st e sch smp h1 h2 h]
  · intro sch smp pd h1 h2 h3 h
    unfold process_request
    rw [pipeline_error_stage4 st e sch smp pd h1 h2 h3 h]
  · intro sch smp pd viz h1 h2 h3 h4 h
    unfold process_request
    rw [pipeline_error_stage5 st e sch smp pd viz h1 h2 h3 h4 h]

theorem process_request_error_frame_witness :
    stW.map_schema = Except.error "boom" ∧
      process_request stW "req" ⟨[], []⟩ = (Response.error "boom", ⟨[], []⟩) :=
  ⟨rfl, (process_request_error_frame stW "req" ⟨[], []⟩ "boom").1 rfl⟩

end Agent
